import Mathlib

/-!
Shallow embedding of the `myriad` MPMC channel library (`src/mpmc/queue.rs`,
`src/mpmc/stack.rs`, `src/mpmc/mod.rs`).

Raw pointers are modelled as `Nat` addresses into a heap `Nat → Node α`
together with an allocation counter `nextAlloc`; the null pointer is `Option.none`
on a link field.  Sequential executions are modelled: every
`compare_and_swap` succeeds on its first attempt (no interference), which is
the setting of the claims about insertion/removal order and state updates.
Ghost counters (`notifyOne`, `notifyAll`, `waits`) record condition-variable
calls so that "no wake-up" / "never blocks" claims are observable.
-/

/-- Linked-list node, as in `queue.rs`/`stack.rs`: an optional payload and a
successor link (null = `none`). -/
structure Node (α : Type) where
  data : Option α
  next : Option Nat
deriving DecidableEq

/-- The FIFO queue of `queue.rs`: `head` and `tail` pointers into a heap of
nodes.  `nextAlloc` is the next fresh address handed out by the allocator. -/
structure Queue (α : Type) where
  heap : Nat → Node α
  nextAlloc : Nat
  head : Nat
  tail : Nat

/-- Model of `Queue::new`: one empty placeholder node, head and tail both point at it. -/
def Queue.new {α : Type} : Queue α :=
  { heap := fun _ => ⟨none, none⟩
    nextAlloc := 1
    head := 0
    tail := 0 }

/-- Model of `Queue::push` (sequential run of the CAS loop, which succeeds first try):
allocate a fresh placeholder, swing `tail` to it, then write the value and the
successor link into the *old* tail node. -/
def Queue.push {α : Type} (q : Queue α) (data : α) : Queue α :=
  let newTail := q.nextAlloc
  let heap1 := Function.update q.heap newTail ⟨none, none⟩
  let heap2 := Function.update heap1 q.tail ⟨some data, some newTail⟩
  { heap := heap2
    nextAlloc := q.nextAlloc + 1
    head := q.head
    tail := newTail }

/-- Model of `Queue::pop` (sequential): if `head`'s successor is null return `none`,
otherwise advance `head` to the successor and take the old head's payload. -/
def Queue.pop {α : Type} (q : Queue α) : Option α × Queue α :=
  match (q.heap q.head).next with
  | none => (none, q)
  | some nxt => ((q.heap q.head).data, { q with head := nxt })

/-- The walk of `Queue::len`, with `fuel` bounding the number of hops (the Rust
loop is unguarded; the fuel is a modelling device and the development proves
the walk reaches null within `nextAlloc` hops on every reachable state). -/
def Queue.lenFrom {α : Type} (heap : Nat → Node α) : Nat → Nat → Nat
  | _, 0 => 0
  | p, fuel + 1 =>
    match (heap p).next with
    | none => 0
    | some nxt => Queue.lenFrom heap nxt fuel + 1

/-- Model of `Queue::len`: walk from `head` counting hops to the first null successor. -/
def Queue.len {α : Type} (q : Queue α) : Nat :=
  Queue.lenFrom q.heap q.head q.nextAlloc

/-- A container operation: insert (`push`) or remove (`pop`). -/
inductive COp (α : Type) where
  | push (v : α)
  | pop
deriving DecidableEq

/-- Run a sequence of operations on a queue, starting from `q`. -/
def Queue.runFrom {α : Type} (q : Queue α) : List (COp α) → Queue α
  | [] => q
  | .push v :: rest => Queue.runFrom (q.push v) rest
  | .pop :: rest => Queue.runFrom (q.pop).2 rest

/-- Run a sequence of operations on a fresh queue. -/
def Queue.run {α : Type} (l : List (COp α)) : Queue α :=
  Queue.runFrom Queue.new l

/-- Push a whole list of values, left to right. -/
def Queue.pushAll {α : Type} (q : Queue α) : List α → Queue α
  | [] => q
  | v :: vs => Queue.pushAll (q.push v) vs

/-- Pop `n` times, collecting the results in order. -/
def Queue.drain {α : Type} (q : Queue α) : Nat → List (Option α)
  | 0 => []
  | n + 1 => (q.pop).1 :: Queue.drain (q.pop).2 n

/-- Abstract FIFO semantics of an operation sequence: the list of values held
after running the sequence from abstract contents `cur`. -/
def queueModelFrom {α : Type} (cur : List α) : List (COp α) → List α
  | [] => cur
  | .push v :: rest => queueModelFrom (cur ++ [v]) rest
  | .pop :: rest => queueModelFrom cur.tail rest

/-- Number of inserts in an operation sequence. -/
def cInserts {α : Type} : List (COp α) → Nat
  | [] => 0
  | .push _ :: rest => cInserts rest + 1
  | .pop :: rest => cInserts rest

/-- Number of successful removes in an operation sequence run against FIFO
contents `cur` (a remove succeeds iff the container is nonempty). -/
def qRemovesFrom {α : Type} (cur : List α) : List (COp α) → Nat
  | [] => 0
  | .push v :: rest => qRemovesFrom (cur ++ [v]) rest
  | .pop :: rest =>
    match cur with
    | [] => qRemovesFrom [] rest
    | _ :: l => qRemovesFrom l rest + 1

/-- The LIFO stack of `stack.rs`: a single `head` pointer (null = `none`) into
a heap of nodes. -/
structure Stack (α : Type) where
  heap : Nat → Node α
  nextAlloc : Nat
  head : Option Nat

/-- Model of `Stack::new`: null head, nothing allocated. -/
def Stack.new {α : Type} : Stack α :=
  { heap := fun _ => ⟨none, none⟩
    nextAlloc := 0
    head := none }

/-- Model of `Stack::push` (sequential run of the CAS loop): allocate a node carrying
the value, point its successor at the current head, swing `head` to it. -/
def Stack.push {α : Type} (s : Stack α) (item : α) : Stack α :=
  let newHead := s.nextAlloc
  { heap := Function.update s.heap newHead ⟨some item, s.head⟩
    nextAlloc := s.nextAlloc + 1
    head := some newHead }

/-- Model of `Stack::pop` (sequential): if `head` is null return `none`, otherwise swing
`head` to the head node's successor and take its payload. -/
def Stack.pop {α : Type} (s : Stack α) : Option α × Stack α :=
  match s.head with
  | none => (none, s)
  | some p => ((s.heap p).data, { s with head := (s.heap p).next })

/-- The walk of `Stack::len`, with `fuel` bounding the number of hops (same
modelling device as `Queue.lenFrom`). -/
def Stack.lenFrom {α : Type} (heap : Nat → Node α) : Option Nat → Nat → Nat
  | _, 0 => 0
  | none, _ + 1 => 0
  | some p, fuel + 1 => Stack.lenFrom heap (heap p).next fuel + 1

/-- Model of `Stack::len`: walk from `head` counting nodes to the null pointer. -/
def Stack.len {α : Type} (s : Stack α) : Nat :=
  Stack.lenFrom s.heap s.head s.nextAlloc

/-- Run a sequence of operations on a stack, starting from `s`. -/
def Stack.runFrom {α : Type} (s : Stack α) : List (COp α) → Stack α
  | [] => s
  | .push v :: rest => Stack.runFrom (s.push v) rest
  | .pop :: rest => Stack.runFrom (s.pop).2 rest

/-- Run a sequence of operations on a fresh stack. -/
def Stack.run {α : Type} (l : List (COp α)) : Stack α :=
  Stack.runFrom Stack.new l

/-- Push a whole list of values, left to right. -/
def Stack.pushAll {α : Type} (s : Stack α) : List α → Stack α
  | [] => s
  | v :: vs => Stack.pushAll (s.push v) vs

/-- Pop `n` times, collecting the results in order. -/
def Stack.drain {α : Type} (s : Stack α) : Nat → List (Option α)
  | 0 => []
  | n + 1 => (s.pop).1 :: Stack.drain (s.pop).2 n

/-- Abstract LIFO semantics of an operation sequence: the list of values held
(top first) after running the sequence from abstract contents `cur`. -/
def stackModelFrom {α : Type} (cur : List α) : List (COp α) → List α
  | [] => cur
  | .push v :: rest => stackModelFrom (v :: cur) rest
  | .pop :: rest => stackModelFrom cur.tail rest

/-- Number of successful removes in an operation sequence run against LIFO
contents `cur` (a remove succeeds iff the container is nonempty). -/
def sRemovesFrom {α : Type} (cur : List α) : List (COp α) → Nat
  | [] => 0
  | .push v :: rest => sRemovesFrom (v :: cur) rest
  | .pop :: rest =>
    match cur with
    | [] => sRemovesFrom [] rest
    | _ :: l => sRemovesFrom l rest + 1

/-- The `LockFree<T>` trait of `mod.rs`: insert, remove, count, packaged as a
record of operations on a container state `σ` (the `Box<LockFree<T>>` object). -/
structure LockFree (σ α : Type) where
  push : σ → α → σ
  pop : σ → Option α × σ
  len : σ → Nat

/-- The queue's `LockFree` implementation. -/
def Queue.ops (α : Type) : LockFree (Queue α) α :=
  ⟨Queue.push, Queue.pop, Queue.len⟩

/-- The stack's `LockFree` implementation. -/
def Stack.ops (α : Type) : LockFree (Stack α) α :=
  ⟨Stack.push, Stack.pop, Stack.len⟩

/-- The shared channel state (`struct Inner` of `mod.rs`, renamed to avoid a
library name clash): the container, the `connected`
liveness flag, the mutex-protected boolean (`guard`), and the sleeper count.
The fields `notifyOne`, `notifyAll` and `waits` are ghost counters recording
calls to `notify_one`, `notify_all` and `Condvar::wait`, so that claims about
wake-ups and blocking are stated as observable state. -/
structure ChanInner (σ : Type) where
  data : σ
  connected : Bool
  guard : Bool
  sleepers : Nat
  notifyOne : Nat
  notifyAll : Nat
  waits : Nat

/-- The channel state built by `queue()` / `stack()`: connected, no sleepers. -/
def ChanInner.new {σ : Type} (init : σ) : ChanInner σ :=
  ⟨init, true, false, 0, 0, 0, 0⟩

/-- The receive error enum of `mod.rs`. -/
inductive Error where
  | Empty
  | Disconnected
deriving DecidableEq

/-- Model of `Sender::send`: if connected, push into the container and, when sleepers
are present, set the guard flag and notify one waiter; if disconnected, return
the value to the caller unchanged. -/
def ChanInner.send {σ α : Type} (ops : LockFree σ α) (ch : ChanInner σ) (v : α) :
    Except α Unit × ChanInner σ :=
  if ch.connected then
    let d := ops.push ch.data v
    if ch.sleepers > 0 then
      (.ok (), { ch with data := d, guard := true, notifyOne := ch.notifyOne + 1 })
    else
      (.ok (), { ch with data := d })
  else
    (.error v, ch)

/-- Model of `Receiver::try_recv`: pop from the container; on `some` return the value,
on `none` report `Empty` when still connected and `Disconnected` otherwise. -/
def ChanInner.try_recv {σ α : Type} (ops : LockFree σ α) (ch : ChanInner σ) :
    Except Error α × ChanInner σ :=
  match ops.pop ch.data with
  | (some d, s) => (.ok d, { ch with data := s })
  | (none, s) =>
    if ch.connected then (.error .Empty, { ch with data := s })
    else (.error .Disconnected, { ch with data := s })

/-- Outcome of one call to `Receiver::recv`, run to its first suspension point:
a value, a disconnection report, or `parked` — the thread has entered the
blocking path and called `Condvar::wait`. -/
inductive RecvOutcome (α : Type) where
  | value (v : α)
  | disconnected
  | parked
deriving DecidableEq

/-- The blocking path of `Receiver::recv`, run to its first suspension point:
take the guard lock, increment the sleeper count, re-try `try_recv` inside the
loop (guarding against values pushed in between); on success or disconnection
break and decrement the sleeper count; otherwise park on the condition
variable (`waits` records the park). -/
def ChanInner.recvSlow {σ α : Type} (ops : LockFree σ α) (ch1 : ChanInner σ) :
    RecvOutcome α × ChanInner σ :=
  match ChanInner.try_recv ops { ch1 with sleepers := ch1.sleepers + 1 } with
  | (.ok d, ch3) => (.value d, { ch3 with sleepers := ch3.sleepers - 1 })
  | (.error .Disconnected, ch3) => (.disconnected, { ch3 with sleepers := ch3.sleepers - 1 })
  | (.error .Empty, ch3) => (.parked, { ch3 with waits := ch3.waits + 1 })

/-- Model of `Receiver::recv`, modelled up to the first `Condvar::wait`: try `try_recv`;
on a value or disconnection return immediately; only on `Empty` enter the
blocking path `recvSlow`. -/
def ChanInner.recv {σ α : Type} (ops : LockFree σ α) (ch : ChanInner σ) :
    RecvOutcome α × ChanInner σ :=
  match ChanInner.try_recv ops ch with
  | (.ok d, ch1) => (.value d, ch1)
  | (.error .Disconnected, ch1) => (.disconnected, ch1)
  | (.error .Empty, ch1) => ChanInner.recvSlow ops ch1

/-- Model of `Sender::size_hint`: the container's count. -/
def ChanInner.size_hint {σ α : Type} (ops : LockFree σ α) (ch : ChanInner σ) : Nat :=
  ops.len ch.data

/-- Model of `Drop for RecvInner`: runs when the last receiver handle is released —
store `false` into the liveness flag. -/
def ChanInner.dropRecvInner {σ : Type} (ch : ChanInner σ) : ChanInner σ :=
  { ch with connected := false }

/-- Model of `Drop for SendInner`: runs when the last sender handle is released — store
`false` into the liveness flag and, if sleepers are present, set the guard flag
and notify all waiters. -/
def ChanInner.dropSendInner {σ : Type} (ch : ChanInner σ) : ChanInner σ :=
  if ch.sleepers > 0 then
    { ch with connected := false, guard := true, notifyAll := ch.notifyAll + 1 }
  else
    { ch with connected := false }

/-- A whole channel: the shared `ChanInner` plus the reference counts of the
`Arc<SendInner>` and `Arc<RecvInner>` (the number of live `Sender` and
`Receiver` clones). -/
structure ChanSys (σ : Type) where
  inner : ChanInner σ
  senders : Nat
  receivers : Nat

/-- Model of `queue()` / `stack()`: a fresh connected channel with one sender handle
and one receiver handle. -/
def ChanSys.new {σ : Type} (init : σ) : ChanSys σ :=
  ⟨ChanInner.new init, 1, 1⟩

/-- The channel API surface, as operations on a `ChanSys`. -/
inductive SysOp (α : Type) where
  | send (v : α)
  | tryRecv
  | recvStep
  | sizeHint
  | cloneSender
  | dropSender
  | cloneReceiver
  | dropReceiver
deriving DecidableEq

/-- One API call on a channel.  Dropping a handle decrements its side's
reference count; only the drop that takes a count from 1 to 0 runs the
corresponding `Drop` destructor on the shared `ChanInner` (the `Arc` semantics).
`Sender::close` is a voluntary `dropSender`. -/
def ChanSys.step {σ α : Type} (ops : LockFree σ α) (s : ChanSys σ) : SysOp α → ChanSys σ
  | .send v => { s with inner := (ChanInner.send ops s.inner v).2 }
  | .tryRecv => { s with inner := (ChanInner.try_recv ops s.inner).2 }
  | .recvStep => { s with inner := (ChanInner.recv ops s.inner).2 }
  | .sizeHint => s
  | .cloneSender => { s with senders := s.senders + 1 }
  | .dropSender =>
    if s.senders = 1 then { s with senders := 0, inner := ChanInner.dropSendInner s.inner }
    else { s with senders := s.senders - 1 }
  | .cloneReceiver => { s with receivers := s.receivers + 1 }
  | .dropReceiver =>
    if s.receivers = 1 then { s with receivers := 0, inner := ChanInner.dropRecvInner s.inner }
    else { s with receivers := s.receivers - 1 }

/-- A fresh connected channel state over a fresh queue (concrete test value). -/
def sampleConn : ChanInner (Queue Nat) :=
  ChanInner.new Queue.new

/-- The fresh channel state with the liveness flag cleared (concrete test value). -/
def sampleDisc : ChanInner (Queue Nat) :=
  { sampleConn with connected := false }

/-- A disconnected channel state whose queue still holds the pending value 7
(concrete test value). -/
def sampleLoaded : ChanInner (Queue Nat) :=
  { sampleDisc with data := Queue.push Queue.new 7 }

/-- A fresh channel system: one sender, one receiver (concrete test value). -/
def sampleSys : ChanSys (Queue Nat) :=
  ChanSys.new Queue.new

/-- The queue's structural invariant: from pointer `p` a chain of fully written
nodes carrying the values `l` leads to the tail placeholder `t`, which holds no
payload and a null successor; every chain node's address is below `bound`. -/
inductive QChain {α : Type} (heap : Nat → Node α) (bound : Nat) : Nat → List α → Nat → Prop
  | nil (p : Nat) (hp : p < bound) (hnode : heap p = ⟨none, none⟩) :
      QChain heap bound p [] p
  | cons (p nxt : Nat) (v : α) (l : List α) (t : Nat) (hp : p < bound)
      (hnode : heap p = ⟨some v, some nxt⟩) (h : QChain heap bound nxt l t) :
      QChain heap bound p (v :: l) t

/-- The stack's structural invariant: from pointer `p` (null = `none`) a chain
of nodes carrying the values `l` (top first) leads to the null pointer; every
node already carries its payload and every address is below `bound`. -/
inductive SChain {α : Type} (heap : Nat → Node α) (bound : Nat) : Option Nat → List α → Prop
  | nil : SChain heap bound none []
  | cons (p : Nat) (nxt : Option Nat) (v : α) (l : List α) (hp : p < bound)
      (hnode : heap p = ⟨some v, nxt⟩) (h : SChain heap bound nxt l) :
      SChain heap bound (some p) (v :: l)

theorem QChain.tail_spec {α : Type} {heap : Nat → Node α} {bound p t : Nat} {l : List α}
    (h : QChain heap bound p l t) : heap t = ⟨none, none⟩ ∧ t < bound := by
  induction h with
  | nil p hp hnode => exact ⟨hnode, hp⟩
  | cons p nxt v l t hp hnode h ih => exact ih

theorem QChain.mono {α : Type} {heap : Nat → Node α} {bound bound' p t : Nat} {l : List α}
    (h : QChain heap bound p l t) (hb : bound ≤ bound') : QChain heap bound' p l t := by
  induction h with
  | nil p hp hnode => exact .nil p (lt_of_lt_of_le hp hb) hnode
  | cons p nxt v l t hp hnode h ih => exact .cons p nxt v l t (lt_of_lt_of_le hp hb) hnode ih

theorem QChain.update_fresh {α : Type} {heap : Nat → Node α} {bound p t m : Nat} {l : List α}
    (h : QChain heap bound p l t) (hm : bound ≤ m) (nd : Node α) :
    QChain (Function.update heap m nd) bound p l t := by
  induction h with
  | nil p hp hnode =>
    exact .nil p hp (by rw [Function.update_noteq (Nat.ne_of_lt (lt_of_lt_of_le hp hm))]; exact hnode)
  | cons p nxt v l t hp hnode h ih =>
    exact .cons p nxt v l t hp
      (by rw [Function.update_noteq (Nat.ne_of_lt (lt_of_lt_of_le hp hm))]; exact hnode) ih

theorem QChain.push_heap {α : Type} {heap : Nat → Node α} {n p t : Nat} {l : List α} (v : α)
    (h : QChain heap n p l t) :
    QChain (Function.update (Function.update heap n ⟨none, none⟩) t ⟨some v, some n⟩)
      (n + 1) p (l ++ [v]) n := by
  induction h with
  | nil p hp hnode =>
    refine .cons p n v [] n (Nat.lt_succ_of_lt hp) (Function.update_same _ _ _) ?_
    refine .nil n (Nat.lt_succ_self _) ?_
    rw [Function.update_noteq (Nat.ne_of_lt hp).symm, Function.update_same]
  | cons p nxt w l t hp hnode hsub ih =>
    have hpt : p ≠ t := by
      intro he
      rw [he, hsub.tail_spec.1] at hnode
      simp at hnode
    refine .cons p nxt w (l ++ [v]) n (Nat.lt_succ_of_lt hp) ?_ ih
    rw [Function.update_noteq hpt, Function.update_noteq (Nat.ne_of_lt hp)]
    exact hnode

theorem QChain.push {α : Type} {q : Queue α} {l : List α} (v : α)
    (h : QChain q.heap q.nextAlloc q.head l q.tail) :
    QChain (q.push v).heap (q.push v).nextAlloc (q.push v).head (l ++ [v]) (q.push v).tail :=
  QChain.push_heap v h

theorem QChain.nil_inv {α : Type} {heap : Nat → Node α} {n p t : Nat}
    (h : QChain heap n p [] t) : p = t ∧ heap p = ⟨none, none⟩ ∧ p < n := by
  cases h with
  | nil p hp hnode => exact ⟨rfl, hnode, hp⟩

theorem QChain.cons_inv {α : Type} {heap : Nat → Node α} {n p t : Nat} {v : α} {l : List α}
    (h : QChain heap n p (v :: l) t) :
    ∃ nxt, heap p = ⟨some v, some nxt⟩ ∧ p < n ∧ QChain heap n nxt l t := by
  cases h with
  | cons p nxt v l t hp hnode hsub => exact ⟨nxt, hnode, hp, hsub⟩

theorem QChain.pop_nil {α : Type} {q : Queue α} {t : Nat}
    (h : QChain q.heap q.nextAlloc q.head [] t) : q.pop = (none, q) := by
  obtain ⟨_, hnode, _⟩ := h.nil_inv
  unfold Queue.pop
  rw [hnode]

theorem QChain.pop_cons {α : Type} {q : Queue α} {v : α} {l : List α} {t : Nat}
    (h : QChain q.heap q.nextAlloc q.head (v :: l) t) :
    ∃ nxt, q.pop = (some v, { q with head := nxt }) ∧ QChain q.heap q.nextAlloc nxt l t := by
  obtain ⟨nxt, hnode, _, hsub⟩ := h.cons_inv
  refine ⟨nxt, ?_, hsub⟩
  unfold Queue.pop
  rw [hnode]

theorem Queue.new_chain {α : Type} :
    QChain (Queue.new (α := α)).heap (Queue.new (α := α)).nextAlloc (Queue.new (α := α)).head
      [] (Queue.new (α := α)).tail :=
  QChain.nil 0 Nat.one_pos rfl

theorem QChain.pushAll {α : Type} : ∀ (vs : List α) (q : Queue α) (l : List α),
    QChain q.heap q.nextAlloc q.head l q.tail →
    QChain (q.pushAll vs).heap (q.pushAll vs).nextAlloc (q.pushAll vs).head (l ++ vs)
      (q.pushAll vs).tail
  | [], q, l, h => by simpa using h
  | v :: vs, q, l, h => by
    have h2 := QChain.pushAll vs (q.push v) (l ++ [v]) (QChain.push v h)
    rw [List.append_assoc, List.singleton_append] at h2
    exact h2

theorem QChain.drain {α : Type} : ∀ (l : List α) (q : Queue α) (t : Nat),
    QChain q.heap q.nextAlloc q.head l t →
    q.drain (l.length + 1) = l.map some ++ [none]
  | [], q, t, h => by
    show (q.pop).1 :: (q.pop).2.drain 0 = [none]
    rw [h.pop_nil]
    rfl
  | v :: l, q, t, h => by
    obtain ⟨nxt, hpop, hsub⟩ := h.pop_cons
    show (q.pop).1 :: (q.pop).2.drain (l.length + 1) = some v :: (l.map some ++ [none])
    rw [hpop]
    exact congrArg (some v :: ·) (QChain.drain l { q with head := nxt } t hsub)

theorem QChain.lenFrom_eq {α : Type} {heap : Nat → Node α} {n p t : Nat} {l : List α}
    (h : QChain heap n p l t) :
    ∀ fuel, l.length ≤ fuel → Queue.lenFrom heap p fuel = l.length := by
  induction h with
  | nil p hp hnode =>
    intro fuel _
    cases fuel with
    | zero => rfl
    | succ f => simp [Queue.lenFrom, hnode]
  | cons p nxt v l t hp hnode hsub ih =>
    intro fuel hf
    cases fuel with
    | zero => simp at hf
    | succ f =>
      have hf2 : l.length ≤ f := by simp at hf; omega
      simp only [Queue.lenFrom, hnode]
      rw [ih f hf2]
      simp

theorem Queue.runFrom_inv {α : Type} : ∀ (ops : List (COp α)) (q : Queue α) (cur : List α),
    QChain q.heap q.nextAlloc q.head cur q.tail → cur.length < q.nextAlloc →
    QChain (Queue.runFrom q ops).heap (Queue.runFrom q ops).nextAlloc (Queue.runFrom q ops).head
      (queueModelFrom cur ops) (Queue.runFrom q ops).tail ∧
    (queueModelFrom cur ops).length < (Queue.runFrom q ops).nextAlloc
  | [], _, _, h, hlen => ⟨h, hlen⟩
  | .push v :: rest, q, cur, h, hlen => by
    have hlen2 : (cur ++ [v]).length < (q.push v).nextAlloc := by
      show (cur ++ [v]).length < q.nextAlloc + 1
      simp only [List.length_append, List.length_cons, List.length_nil]
      omega
    exact Queue.runFrom_inv rest (q.push v) (cur ++ [v]) (QChain.push v h) hlen2
  | .pop :: rest, q, cur, h, hlen => by
    simp only [Queue.runFrom, queueModelFrom]
    cases cur with
    | nil =>
      rw [h.pop_nil]
      exact Queue.runFrom_inv rest q [] h hlen
    | cons v cur' =>
      obtain ⟨nxt, hpop, hsub⟩ := h.pop_cons
      rw [hpop]
      refine Queue.runFrom_inv rest { q with head := nxt } cur' hsub ?_
      show cur'.length < q.nextAlloc
      simp only [List.length_cons] at hlen
      omega

theorem Queue.run_chain {α : Type} (l : List (COp α)) :
    QChain (Queue.run l).heap (Queue.run l).nextAlloc (Queue.run l).head
      (queueModelFrom [] l) (Queue.run l).tail ∧
    (queueModelFrom [] l).length < (Queue.run l).nextAlloc :=
  Queue.runFrom_inv l Queue.new [] Queue.new_chain Nat.one_pos

theorem Queue.len_run {α : Type} (l : List (COp α)) :
    Queue.len (Queue.run l) = (queueModelFrom [] l).length := by
  obtain ⟨hch, hlen⟩ := Queue.run_chain l
  exact hch.lenFrom_eq (Queue.run l).nextAlloc (Nat.le_of_lt hlen)

theorem queueModelFrom_length {α : Type} : ∀ (ops : List (COp α)) (cur : List α),
    (queueModelFrom cur ops).length + qRemovesFrom cur ops = cur.length + cInserts ops
  | [], cur => by simp [queueModelFrom, qRemovesFrom, cInserts]
  | .push v :: rest, cur => by
    have h := queueModelFrom_length rest (cur ++ [v])
    simp only [queueModelFrom, qRemovesFrom, cInserts]
    simp only [List.length_append, List.length_cons, List.length_nil] at h
    omega
  | .pop :: rest, cur => by
    cases cur with
    | nil =>
      have h := queueModelFrom_length rest []
      simp only [queueModelFrom, qRemovesFrom, List.tail_nil, cInserts]
      simp only [List.length_nil] at h ⊢
      omega
    | cons v cur' =>
      have h := queueModelFrom_length rest cur'
      simp only [queueModelFrom, qRemovesFrom, List.tail_cons, cInserts, List.length_cons]
      omega

theorem SChain.mono_stk {α : Type} {heap : Nat → Node α} {bound bound' : Nat} {hd : Option Nat}
    {l : List α} (h : SChain heap bound hd l) (hb : bound ≤ bound') : SChain heap bound' hd l := by
  induction h with
  | nil => exact .nil
  | cons p nxt v l hp hnode h ih => exact .cons p nxt v l (lt_of_lt_of_le hp hb) hnode ih

theorem SChain.update_fresh_stk {α : Type} {heap : Nat → Node α} {bound m : Nat} {hd : Option Nat}
    {l : List α} (h : SChain heap bound hd l) (hm : bound ≤ m) (nd : Node α) :
    SChain (Function.update heap m nd) bound hd l := by
  induction h with
  | nil => exact .nil
  | cons p nxt v l hp hnode h ih =>
    exact .cons p nxt v l hp
      (by rw [Function.update_noteq (Nat.ne_of_lt (lt_of_lt_of_le hp hm))]; exact hnode) ih

theorem SChain.push_stk {α : Type} {s : Stack α} {l : List α} (v : α)
    (h : SChain s.heap s.nextAlloc s.head l) :
    SChain (s.push v).heap (s.push v).nextAlloc (s.push v).head (v :: l) := by
  refine .cons s.nextAlloc s.head v l (Nat.lt_succ_self _) (Function.update_same _ _ _) ?_
  exact (h.update_fresh_stk (le_refl _) _).mono_stk (Nat.le_succ _)

theorem SChain.nil_head {α : Type} {heap : Nat → Node α} {bound : Nat} {hd : Option Nat}
    (h : SChain heap bound hd []) : hd = none := by
  cases h
  rfl

theorem SChain.cons_head {α : Type} {heap : Nat → Node α} {bound : Nat} {hd : Option Nat}
    {v : α} {l : List α} (h : SChain heap bound hd (v :: l)) :
    ∃ p nxt, hd = some p ∧ heap p = ⟨some v, nxt⟩ ∧ p < bound ∧ SChain heap bound nxt l := by
  cases h with
  | cons p nxt v l hp hnode hsub => exact ⟨p, nxt, rfl, hnode, hp, hsub⟩

theorem SChain.pop_nil_stk {α : Type} {s : Stack α}
    (h : SChain s.heap s.nextAlloc s.head []) : s.pop = (none, s) := by
  have hhd := h.nil_head
  unfold Stack.pop
  rw [hhd]

theorem SChain.pop_cons_stk {α : Type} {s : Stack α} {v : α} {l : List α}
    (h : SChain s.heap s.nextAlloc s.head (v :: l)) :
    ∃ nxt, s.pop = (some v, { s with head := nxt }) ∧ SChain s.heap s.nextAlloc nxt l := by
  obtain ⟨p, nxt, hhd, hnode, _, hsub⟩ := h.cons_head
  refine ⟨nxt, ?_, hsub⟩
  unfold Stack.pop
  rw [hhd]
  show ((s.heap p).data, { s with head := (s.heap p).next }) = (some v, { s with head := nxt })
  rw [hnode]

theorem Stack.new_chain_stk {α : Type} :
    SChain (Stack.new (α := α)).heap (Stack.new (α := α)).nextAlloc (Stack.new (α := α)).head [] :=
  SChain.nil

theorem SChain.pushAll_stk {α : Type} : ∀ (vs : List α) (s : Stack α) (l : List α),
    SChain s.heap s.nextAlloc s.head l →
    SChain (s.pushAll vs).heap (s.pushAll vs).nextAlloc (s.pushAll vs).head (vs.reverse ++ l)
  | [], s, l, h => by simpa using h
  | v :: vs, s, l, h => by
    have h2 := SChain.pushAll_stk vs (s.push v) (v :: l) (SChain.push_stk v h)
    rw [List.reverse_cons, List.append_assoc, List.singleton_append]
    exact h2

theorem SChain.drain_stk {α : Type} : ∀ (l : List α) (s : Stack α),
    SChain s.heap s.nextAlloc s.head l →
    s.drain (l.length + 1) = l.map some ++ [none]
  | [], s, h => by
    show (s.pop).1 :: (s.pop).2.drain 0 = [none]
    rw [h.pop_nil_stk]
    rfl
  | v :: l, s, h => by
    obtain ⟨nxt, hpop, hsub⟩ := h.pop_cons_stk
    show (s.pop).1 :: (s.pop).2.drain (l.length + 1) = some v :: (l.map some ++ [none])
    rw [hpop]
    exact congrArg (some v :: ·) (SChain.drain_stk l { s with head := nxt } hsub)

theorem SChain.lenFrom_eq_stk {α : Type} {heap : Nat → Node α} {bound : Nat} {hd : Option Nat}
    {l : List α} (h : SChain heap bound hd l) :
    ∀ fuel, l.length ≤ fuel → Stack.lenFrom heap hd fuel = l.length := by
  induction h with
  | nil =>
    intro fuel _
    cases fuel <;> rfl
  | cons p nxt v l hp hnode hsub ih =>
    intro fuel hf
    cases fuel with
    | zero => simp at hf
    | succ f =>
      have hf2 : l.length ≤ f := by simp at hf; omega
      simp only [Stack.lenFrom, hnode]
      rw [ih f hf2]
      simp

theorem Stack.runFrom_inv_stk {α : Type} : ∀ (ops : List (COp α)) (s : Stack α) (cur : List α),
    SChain s.heap s.nextAlloc s.head cur → cur.length ≤ s.nextAlloc →
    SChain (Stack.runFrom s ops).heap (Stack.runFrom s ops).nextAlloc (Stack.runFrom s ops).head
      (stackModelFrom cur ops) ∧
    (stackModelFrom cur ops).length ≤ (Stack.runFrom s ops).nextAlloc
  | [], _, _, h, hlen => ⟨h, hlen⟩
  | .push v :: rest, s, cur, h, hlen => by
    have hlen2 : (v :: cur).length ≤ (s.push v).nextAlloc := by
      show (v :: cur).length ≤ s.nextAlloc + 1
      simp only [List.length_cons]
      omega
    exact Stack.runFrom_inv_stk rest (s.push v) (v :: cur) (SChain.push_stk v h) hlen2
  | .pop :: rest, s, cur, h, hlen => by
    simp only [Stack.runFrom, stackModelFrom]
    cases cur with
    | nil =>
      rw [h.pop_nil_stk]
      exact Stack.runFrom_inv_stk rest s [] h hlen
    | cons v cur' =>
      obtain ⟨nxt, hpop, hsub⟩ := h.pop_cons_stk
      rw [hpop]
      refine Stack.runFrom_inv_stk rest { s with head := nxt } cur' hsub ?_
      show cur'.length ≤ s.nextAlloc
      simp only [List.length_cons] at hlen
      omega

theorem Stack.run_chain_stk {α : Type} (l : List (COp α)) :
    SChain (Stack.run l).heap (Stack.run l).nextAlloc (Stack.run l).head (stackModelFrom [] l) ∧
    (stackModelFrom [] l).length ≤ (Stack.run l).nextAlloc :=
  Stack.runFrom_inv_stk l Stack.new [] Stack.new_chain_stk (Nat.le_refl 0)

theorem Stack.len_run_stk {α : Type} (l : List (COp α)) :
    Stack.len (Stack.run l) = (stackModelFrom [] l).length := by
  obtain ⟨hch, hlen⟩ := Stack.run_chain_stk l
  exact hch.lenFrom_eq_stk (Stack.run l).nextAlloc hlen

theorem stackModelFrom_length {α : Type} : ∀ (ops : List (COp α)) (cur : List α),
    (stackModelFrom cur ops).length + sRemovesFrom cur ops = cur.length + cInserts ops
  | [], cur => by simp [stackModelFrom, sRemovesFrom, cInserts]
  | .push v :: rest, cur => by
    have h := stackModelFrom_length rest (v :: cur)
    simp only [stackModelFrom, sRemovesFrom, cInserts]
    simp only [List.length_cons] at h
    omega
  | .pop :: rest, cur => by
    cases cur with
    | nil =>
      have h := stackModelFrom_length rest []
      simp only [stackModelFrom, sRemovesFrom, List.tail_nil, cInserts]
      simp only [List.length_nil] at h ⊢
      omega
    | cons v cur' =>
      have h := stackModelFrom_length rest cur'
      simp only [stackModelFrom, sRemovesFrom, List.tail_cons, cInserts, List.length_cons]
      omega

theorem try_recv_pop_some {σ α : Type} (ops : LockFree σ α) (ch : ChanInner σ) {v : α} {s' : σ}
    (h : ops.pop ch.data = (some v, s')) :
    ChanInner.try_recv ops ch = (.ok v, { ch with data := s' }) := by
  unfold ChanInner.try_recv
  rw [h]

theorem try_recv_pop_none_conn {σ α : Type} (ops : LockFree σ α) (ch : ChanInner σ) {s' : σ}
    (h : ops.pop ch.data = (none, s')) (hc : ch.connected = true) :
    ChanInner.try_recv ops ch = (.error .Empty, { ch with data := s' }) := by
  unfold ChanInner.try_recv
  rw [h]
  simp [hc]

theorem try_recv_pop_none_disc {σ α : Type} (ops : LockFree σ α) (ch : ChanInner σ) {s' : σ}
    (h : ops.pop ch.data = (none, s')) (hc : ch.connected = false) :
    ChanInner.try_recv ops ch = (.error .Disconnected, { ch with data := s' }) := by
  unfold ChanInner.try_recv
  rw [h]
  simp [hc]

theorem try_recv_frame {σ α : Type} (ops : LockFree σ α) (ch : ChanInner σ) :
    (ChanInner.try_recv ops ch).2.connected = ch.connected ∧
    (ChanInner.try_recv ops ch).2.guard = ch.guard ∧
    (ChanInner.try_recv ops ch).2.sleepers = ch.sleepers ∧
    (ChanInner.try_recv ops ch).2.notifyOne = ch.notifyOne ∧
    (ChanInner.try_recv ops ch).2.notifyAll = ch.notifyAll ∧
    (ChanInner.try_recv ops ch).2.waits = ch.waits := by
  unfold ChanInner.try_recv
  rcases ops.pop ch.data with ⟨o, s⟩
  cases o with
  | some v => simp
  | none => by_cases hc : ch.connected = true <;> simp [hc]

theorem send_disc {σ α : Type} (ops : LockFree σ α) (ch : ChanInner σ) (v : α)
    (hc : ch.connected = false) : ChanInner.send ops ch v = (.error v, ch) := by
  unfold ChanInner.send
  simp [hc]

theorem send_conn {σ α : Type} (ops : LockFree σ α) (ch : ChanInner σ) (v : α)
    (hc : ch.connected = true) :
    (ChanInner.send ops ch v).1 = .ok () ∧
    (ChanInner.send ops ch v).2.data = ops.push ch.data v := by
  unfold ChanInner.send
  simp only [hc, if_true]
  split <;> simp

theorem send_frame {σ α : Type} (ops : LockFree σ α) (ch : ChanInner σ) (v : α) :
    (ChanInner.send ops ch v).2.connected = ch.connected ∧
    (ChanInner.send ops ch v).2.sleepers = ch.sleepers ∧
    (ChanInner.send ops ch v).2.waits = ch.waits := by
  unfold ChanInner.send
  split
  · split <;> simp
  · simp

theorem recv_try_ok {σ α : Type} (ops : LockFree σ α) (ch : ChanInner σ) {v : α}
    {ch' : ChanInner σ} (h : ChanInner.try_recv ops ch = (.ok v, ch')) :
    ChanInner.recv ops ch = (.value v, ch') := by
  unfold ChanInner.recv
  rw [h]

theorem recv_try_disc {σ α : Type} (ops : LockFree σ α) (ch : ChanInner σ)
    {ch' : ChanInner σ} (h : ChanInner.try_recv ops ch = (.error .Disconnected, ch')) :
    ChanInner.recv ops ch = (.disconnected, ch') := by
  unfold ChanInner.recv
  rw [h]

theorem recvSlow_connected {σ α : Type} (ops : LockFree σ α) (ch1 : ChanInner σ) :
    (ChanInner.recvSlow ops ch1).2.connected = ch1.connected := by
  have hf2 := (try_recv_frame ops { ch1 with sleepers := ch1.sleepers + 1 }).1
  unfold ChanInner.recvSlow
  rcases h2 : ChanInner.try_recv ops { ch1 with sleepers := ch1.sleepers + 1 } with ⟨r2, ch3⟩
  rw [h2] at hf2
  cases r2 with
  | ok d => exact hf2
  | error e =>
    cases e with
    | Disconnected => exact hf2
    | Empty => exact hf2

theorem recv_connected_frame {σ α : Type} (ops : LockFree σ α) (ch : ChanInner σ) :
    (ChanInner.recv ops ch).2.connected = ch.connected := by
  have hf1 := (try_recv_frame ops ch).1
  unfold ChanInner.recv
  rcases h1 : ChanInner.try_recv ops ch with ⟨r1, ch1⟩
  rw [h1] at hf1
  cases r1 with
  | ok d => exact hf1
  | error e =>
    cases e with
    | Disconnected => exact hf1
    | Empty => exact (recvSlow_connected ops ch1).trans hf1

theorem dropSendInner_connected {σ : Type} (ch : ChanInner σ) :
    (ChanInner.dropSendInner ch).connected = false := by
  unfold ChanInner.dropSendInner
  split <;> rfl

/-- C1: for every sequence of pushes on the queue followed by pops (no
concurrency), the pops return the values in exactly insertion order, with no
value skipped or duplicated, and the pop after the last value reports empty
(`none`); in particular pushing 10, 5, 0 and popping four times yields
`some 10`, `some 5`, `some 0`, `none`. -/
theorem queue_fifo_order :
    (∀ (α : Type) (vs : List α),
      Queue.drain (Queue.pushAll Queue.new vs) (vs.length + 1) = vs.map some ++ [none]) ∧
    Queue.drain (Queue.pushAll Queue.new [10, 5, 0]) 4 = [some 10, some 5, some 0, none] := by
  have main : ∀ (α : Type) (vs : List α),
      Queue.drain (Queue.pushAll Queue.new vs) (vs.length + 1) = vs.map some ++ [none] := by
    intro α vs
    have h := QChain.pushAll vs Queue.new [] Queue.new_chain
    rw [List.nil_append] at h
    exact QChain.drain vs (Queue.pushAll Queue.new vs) _ h
  exact ⟨main, by simpa using main Nat [10, 5, 0]⟩

/-- C2: for every sequence of pushes on the stack (no concurrent pop) followed
by pops, the pops return the values in exactly reverse insertion order, and the
pop after the last value reports empty (`none`); in particular pushing
10, 5, 0 and popping four times yields `some 0`, `some 5`, `some 10`, `none`. -/
theorem stack_lifo_order :
    (∀ (α : Type) (vs : List α),
      Stack.drain (Stack.pushAll Stack.new vs) (vs.length + 1) = vs.reverse.map some ++ [none]) ∧
    Stack.drain (Stack.pushAll Stack.new [10, 5, 0]) 4 = [some 0, some 5, some 10, none] := by
  have main : ∀ (α : Type) (vs : List α),
      Stack.drain (Stack.pushAll Stack.new vs) (vs.length + 1) = vs.reverse.map some ++ [none] := by
    intro α vs
    have h := SChain.pushAll_stk vs Stack.new [] Stack.new_chain_stk
    rw [List.append_nil] at h
    have h2 := SChain.drain_stk vs.reverse (Stack.pushAll Stack.new vs) h
    rw [List.length_reverse] at h2
    exact h2
  exact ⟨main, by simpa using main Nat [10, 5, 0]⟩

theorem Queue.push_heap_new {α : Type} (q : Queue α) (v : α) (h : q.tail < q.nextAlloc) :
    (q.push v).heap (q.push v).tail = ⟨none, none⟩ := by
  show Function.update (Function.update q.heap q.nextAlloc ⟨none, none⟩) q.tail
      ⟨some v, some q.nextAlloc⟩ q.nextAlloc = ⟨none, none⟩
  rw [Function.update_noteq (Nat.ne_of_lt h).symm, Function.update_same]

theorem Queue.push_heap_old {α : Type} (q : Queue α) (v : α) :
    (q.push v).heap q.tail = ⟨some v, some q.nextAlloc⟩ := by
  show Function.update (Function.update q.heap q.nextAlloc ⟨none, none⟩) q.tail
      ⟨some v, some q.nextAlloc⟩ q.tail = ⟨some v, some q.nextAlloc⟩
  exact Function.update_same _ _ _

/-- C7: for every container state reached by a sequence of inserts and removes
with no concurrent mutation, the list walk of `len` (`count`/`size_hint`)
returns exactly the number of values currently held — the number of inserts
minus the number of successful removes — for the queue (walking from head
along successor links to the first null successor) and for the stack (walking
from head to the null pointer). -/
theorem count_exact :
    (∀ (α : Type) (ops : List (COp α)),
      Queue.len (Queue.run ops) = (queueModelFrom [] ops).length ∧
      Queue.len (Queue.run ops) + qRemovesFrom [] ops = cInserts ops ∧
      Queue.len (Queue.run ops) = cInserts ops - qRemovesFrom [] ops) ∧
    (∀ (α : Type) (ops : List (COp α)),
      Stack.len (Stack.run ops) = (stackModelFrom [] ops).length ∧
      Stack.len (Stack.run ops) + sRemovesFrom [] ops = cInserts ops ∧
      Stack.len (Stack.run ops) = cInserts ops - sRemovesFrom [] ops) := by
  constructor
  · intro α ops
    have h1 := Queue.len_run ops
    have h2 := queueModelFrom_length ops ([] : List α)
    simp only [List.length_nil, Nat.zero_add] at h2
    refine ⟨h1, ?_, ?_⟩ <;> omega
  · intro α ops
    have h1 := Stack.len_run_stk ops
    have h2 := stackModelFrom_length ops ([] : List α)
    simp only [List.length_nil, Nat.zero_add] at h2
    refine ⟨h1, ?_, ?_⟩ <;> omega

/-- C8: on every reachable queue state the linked list contains at least one
node: the chain from `head` ends at the tail placeholder, which is allocated,
has an empty payload slot and a null successor; and each push moves `tail` to
the newly allocated placeholder while writing its value into the node
previously pointed to by `tail` (write-behind), not into the new node. -/
theorem queue_tail_invariant :
    ∀ (α : Type) (ops : List (COp α)),
      (∃ vs, QChain (Queue.run ops).heap (Queue.run ops).nextAlloc (Queue.run ops).head vs
        (Queue.run ops).tail) ∧
      (Queue.run ops).heap (Queue.run ops).tail = ⟨none, none⟩ ∧
      (Queue.run ops).tail < (Queue.run ops).nextAlloc ∧
      (∀ v : α,
        ((Queue.run ops).push v).tail = (Queue.run ops).nextAlloc ∧
        ((Queue.run ops).push v).tail ≠ (Queue.run ops).tail ∧
        ((Queue.run ops).push v).heap ((Queue.run ops).push v).tail = ⟨none, none⟩ ∧
        ((Queue.run ops).push v).heap (Queue.run ops).tail =
          ⟨some v, some (((Queue.run ops).push v).tail)⟩) := by
  intro α ops
  obtain ⟨hch, _⟩ := Queue.run_chain ops
  obtain ⟨hnode, hlt⟩ := hch.tail_spec
  refine ⟨⟨_, hch⟩, hnode, hlt, ?_⟩
  intro v
  exact ⟨rfl, (Nat.ne_of_lt hlt).symm, Queue.push_heap_new _ v hlt, Queue.push_heap_old _ v⟩

/-- C9: `send`, `try_recv` and `size_hint` never block: `send` and `try_recv`
never wait on the condition variable (the `waits` ghost counter is unchanged)
and never change the sleeper count; `size_hint` is the container's pure count;
and the list walk of `len` terminates on every reachable container — walking
with any fuel at least `nextAlloc` already reaches the null link and returns
the same count. -/
theorem nonblocking_ops :
    (∀ (σ α : Type) (ops : LockFree σ α) (ch : ChanInner σ) (v : α),
      (ChanInner.send ops ch v).2.waits = ch.waits ∧
      (ChanInner.send ops ch v).2.sleepers = ch.sleepers) ∧
    (∀ (σ α : Type) (ops : LockFree σ α) (ch : ChanInner σ),
      (ChanInner.try_recv ops ch).2.waits = ch.waits ∧
      (ChanInner.try_recv ops ch).2.sleepers = ch.sleepers) ∧
    (∀ (σ α : Type) (ops : LockFree σ α) (ch : ChanInner σ),
      ChanInner.size_hint ops ch = ops.len ch.data) ∧
    (∀ (α : Type) (l : List (COp α)) (fuel : Nat),
      (Queue.run l).nextAlloc ≤ fuel →
      Queue.lenFrom (Queue.run l).heap (Queue.run l).head fuel = Queue.len (Queue.run l)) ∧
    (∀ (α : Type) (l : List (COp α)) (fuel : Nat),
      (Stack.run l).nextAlloc ≤ fuel →
      Stack.lenFrom (Stack.run l).heap (Stack.run l).head fuel = Stack.len (Stack.run l)) := by
  refine ⟨?_, ?_, ?_, ?_, ?_⟩
  · intro σ α ops ch v
    exact ⟨(send_frame ops ch v).2.2, (send_frame ops ch v).2.1⟩
  · intro σ α ops ch
    exact ⟨(try_recv_frame ops ch).2.2.2.2.2, (try_recv_frame ops ch).2.2.1⟩
  · intro σ α ops ch
    rfl
  · intro α l fuel hf
    obtain ⟨hch, hlen⟩ := Queue.run_chain l
    rw [hch.lenFrom_eq fuel (le_trans (Nat.le_of_lt hlen) hf), Queue.len_run]
  · intro α l fuel hf
    obtain ⟨hch, hlen⟩ := Stack.run_chain_stk l
    rw [hch.lenFrom_eq_stk fuel (le_trans hlen hf), Stack.len_run_stk]

/-- Witness for C9: a concrete reachable queue walked with surplus fuel. -/
theorem nonblocking_ops_witness :
    Queue.lenFrom (Queue.run ([COp.push 1, COp.push 2] : List (COp Nat))).heap
      (Queue.run ([COp.push 1, COp.push 2] : List (COp Nat))).head 9 =
      Queue.len (Queue.run ([COp.push 1, COp.push 2] : List (COp Nat))) :=
  nonblocking_ops.2.2.2.1 Nat [COp.push 1, COp.push 2] 9 (by decide)

/-- C3: `send(v)` on a channel whose liveness flag is false returns failure
carrying exactly `v` and leaves the channel state unchanged (container,
sleeper count, guard and notify counters untouched, no wake-up); `send(v)`
when the flag is true returns success and pushes `v` into the container (for
the queue, the held values become `l ++ [v]`). -/
theorem send_disconnected_returns_value :
    (∀ (σ α : Type) (ops : LockFree σ α) (ch : ChanInner σ) (v : α),
      ch.connected = false → ChanInner.send ops ch v = (.error v, ch)) ∧
    (∀ (σ α : Type) (ops : LockFree σ α) (ch : ChanInner σ) (v : α),
      ch.connected = true →
      (ChanInner.send ops ch v).1 = .ok () ∧
      (ChanInner.send ops ch v).2.data = ops.push ch.data v) ∧
    (∀ (α : Type) (ch : ChanInner (Queue α)) (v : α) (l : List α),
      ch.connected = true →
      QChain ch.data.heap ch.data.nextAlloc ch.data.head l ch.data.tail →
      QChain (ChanInner.send (Queue.ops α) ch v).2.data.heap
        (ChanInner.send (Queue.ops α) ch v).2.data.nextAlloc
        (ChanInner.send (Queue.ops α) ch v).2.data.head (l ++ [v])
        (ChanInner.send (Queue.ops α) ch v).2.data.tail) := by
  refine ⟨?_, ?_, ?_⟩
  · intro σ α ops ch v hc
    exact send_disc ops ch v hc
  · intro σ α ops ch v hc
    exact send_conn ops ch v hc
  · intro α ch v l hc hchain
    have hdata := (send_conn (Queue.ops α) ch v hc).2
    rw [hdata]
    exact QChain.push v hchain

/-- Witness for C3 at concrete channels. -/
theorem send_disconnected_returns_value_witness :
    ChanInner.send (Queue.ops Nat) sampleDisc 42 = (.error 42, sampleDisc) ∧
    (ChanInner.send (Queue.ops Nat) sampleConn 42).1 = .ok () :=
  ⟨send_disconnected_returns_value.1 (Queue Nat) Nat (Queue.ops Nat) sampleDisc 42 rfl,
   (send_disconnected_returns_value.2.1 (Queue Nat) Nat (Queue.ops Nat) sampleConn 42 rfl).1⟩

/-- C4: `try_recv` returns exactly one of three outcomes, decided in this
order: a popped value when the container yields one — even when the channel is
already disconnected, so pending values are drained before disconnection is
reported; `Empty` when the container yields nothing and the flag is true;
`Disconnected` when the container yields nothing and the flag is false. -/
theorem try_recv_trichotomy :
    (∀ (α : Type) (ch : ChanInner (Queue α)) (v : α) (l : List α) (t : Nat),
      QChain ch.data.heap ch.data.nextAlloc ch.data.head (v :: l) t →
      (ChanInner.try_recv (Queue.ops α) ch).1 = .ok v) ∧
    (∀ (α : Type) (ch : ChanInner (Queue α)) (t : Nat),
      QChain ch.data.heap ch.data.nextAlloc ch.data.head [] t →
      ch.connected = true →
      ChanInner.try_recv (Queue.ops α) ch = (.error .Empty, ch)) ∧
    (∀ (α : Type) (ch : ChanInner (Queue α)) (t : Nat),
      QChain ch.data.heap ch.data.nextAlloc ch.data.head [] t →
      ch.connected = false →
      ChanInner.try_recv (Queue.ops α) ch = (.error .Disconnected, ch)) := by
  refine ⟨?_, ?_, ?_⟩
  · intro α ch v l t hch
    obtain ⟨nxt, hpop, _⟩ := hch.pop_cons
    rw [try_recv_pop_some (Queue.ops α) ch hpop]
  · intro α ch t hch hc
    exact try_recv_pop_none_conn (Queue.ops α) ch hch.pop_nil hc
  · intro α ch t hch hc
    exact try_recv_pop_none_disc (Queue.ops α) ch hch.pop_nil hc

/-- Witness for C4, including a disconnected channel with a pending value. -/
theorem try_recv_trichotomy_witness :
    (ChanInner.try_recv (Queue.ops Nat) sampleLoaded).1 = .ok 7 ∧
    ChanInner.try_recv (Queue.ops Nat) sampleConn = (.error .Empty, sampleConn) ∧
    ChanInner.try_recv (Queue.ops Nat) sampleDisc = (.error .Disconnected, sampleDisc) :=
  ⟨try_recv_trichotomy.1 Nat sampleLoaded 7 [] _ (QChain.push 7 Queue.new_chain),
   try_recv_trichotomy.2.1 Nat sampleConn _ Queue.new_chain rfl,
   try_recv_trichotomy.2.2 Nat sampleDisc _ Queue.new_chain rfl⟩

/-- C5: `recv` first attempts `try_recv`: a yielded value is returned as is; a
`Disconnected` report is returned immediately without entering the blocking
path (sleeper count and wait counter unchanged); and when the channel is
disconnected but the queue still holds a value, `recv` returns that pending
value rather than `Disconnected`. -/
theorem recv_fast_path :
    (∀ (σ α : Type) (ops : LockFree σ α) (ch ch' : ChanInner σ) (v : α),
      ChanInner.try_recv ops ch = (.ok v, ch') →
      ChanInner.recv ops ch = (.value v, ch')) ∧
    (∀ (σ α : Type) (ops : LockFree σ α) (ch ch' : ChanInner σ),
      ChanInner.try_recv ops ch = (.error .Disconnected, ch') →
      ChanInner.recv ops ch = (.disconnected, ch') ∧
      ch'.sleepers = ch.sleepers ∧ ch'.waits = ch.waits) ∧
    (∀ (α : Type) (ch : ChanInner (Queue α)) (v : α) (l : List α) (t : Nat),
      ch.connected = false →
      QChain ch.data.heap ch.data.nextAlloc ch.data.head (v :: l) t →
      (ChanInner.recv (Queue.ops α) ch).1 = .value v) := by
  refine ⟨?_, ?_, ?_⟩
  · intro σ α ops ch ch' v h
    exact recv_try_ok ops ch h
  · intro σ α ops ch ch' h
    refine ⟨recv_try_disc ops ch h, ?_, ?_⟩
    · have hs := (try_recv_frame ops ch).2.2.1
      rw [h] at hs
      exact hs
    · have hw := (try_recv_frame ops ch).2.2.2.2.2
      rw [h] at hw
      exact hw
  · intro α ch v l t hc hch
    obtain ⟨nxt, hpop, _⟩ := hch.pop_cons
    rw [recv_try_ok (Queue.ops α) ch (try_recv_pop_some (Queue.ops α) ch hpop)]

/-- Witness for C5: a disconnected channel with a pending value yields it, and
a drained disconnected channel reports disconnection at once. -/
theorem recv_fast_path_witness :
    (ChanInner.recv (Queue.ops Nat) sampleLoaded).1 = .value 7 ∧
    ChanInner.recv (Queue.ops Nat) sampleDisc = (.disconnected, sampleDisc) :=
  ⟨recv_fast_path.2.2 Nat sampleLoaded 7 [] _ rfl (QChain.push 7 Queue.new_chain),
   (recv_fast_path.2.1 (Queue Nat) Nat (Queue.ops Nat) sampleDisc sampleDisc rfl).1⟩

/-- C6: the liveness flag of a newly constructed channel is true; the only API
steps that change it are the drops releasing the last sender or last receiver
handle, which store false; once false it stays false under every step; a send
on a disconnected channel fails; and a drained disconnected queue channel
reports `Disconnected`. -/
theorem connected_lifecycle :
    (∀ (σ : Type) (init : σ), (ChanSys.new init).inner.connected = true) ∧
    (∀ (σ α : Type) (ops : LockFree σ α) (s : ChanSys σ) (op : SysOp α),
      ¬(op = .dropSender ∧ s.senders = 1) →
      ¬(op = .dropReceiver ∧ s.receivers = 1) →
      (ChanSys.step ops s op).inner.connected = s.inner.connected) ∧
    (∀ (σ α : Type) (ops : LockFree σ α) (s : ChanSys σ),
      s.senders = 1 →
      (ChanSys.step ops s (.dropSender : SysOp α)).inner.connected = false) ∧
    (∀ (σ α : Type) (ops : LockFree σ α) (s : ChanSys σ),
      s.receivers = 1 →
      (ChanSys.step ops s (.dropReceiver : SysOp α)).inner.connected = false) ∧
    (∀ (σ α : Type) (ops : LockFree σ α) (s : ChanSys σ) (op : SysOp α),
      s.inner.connected = false →
      (ChanSys.step ops s op).inner.connected = false) ∧
    (∀ (σ α : Type) (ops : LockFree σ α) (ch : ChanInner σ) (v : α),
      ch.connected = false → (ChanInner.send ops ch v).1 = .error v) ∧
    (∀ (α : Type) (ch : ChanInner (Queue α)) (t : Nat),
      QChain ch.data.heap ch.data.nextAlloc ch.data.head [] t →
      ch.connected = false →
      (ChanInner.try_recv (Queue.ops α) ch).1 = .error .Disconnected) := by
  refine ⟨?_, ?_, ?_, ?_, ?_, ?_, ?_⟩
  · intro σ init
    rfl
  · intro σ α ops s op h1 h2
    cases op with
    | send v => exact (send_frame ops s.inner v).1
    | tryRecv => exact (try_recv_frame ops s.inner).1
    | recvStep => exact recv_connected_frame ops s.inner
    | sizeHint => rfl
    | cloneSender => rfl
    | cloneReceiver => rfl
    | dropSender =>
      have hs : s.senders ≠ 1 := fun h => h1 ⟨rfl, h⟩
      simp only [ChanSys.step]
      rw [if_neg hs]
    | dropReceiver =>
      have hr : s.receivers ≠ 1 := fun h => h2 ⟨rfl, h⟩
      simp only [ChanSys.step]
      rw [if_neg hr]
  · intro σ α ops s hs
    simp only [ChanSys.step]
    rw [if_pos hs]
    exact dropSendInner_connected s.inner
  · intro σ α ops s hr
    simp only [ChanSys.step]
    rw [if_pos hr]
    rfl
  · intro σ α ops s op hc
    cases op with
    | send v => exact ((send_frame ops s.inner v).1).trans hc
    | tryRecv => exact ((try_recv_frame ops s.inner).1).trans hc
    | recvStep => exact (recv_connected_frame ops s.inner).trans hc
    | sizeHint => exact hc
    | cloneSender => exact hc
    | cloneReceiver => exact hc
    | dropSender =>
      by_cases hs : s.senders = 1
      · simp only [ChanSys.step]
        rw [if_pos hs]
        exact dropSendInner_connected s.inner
      · simp only [ChanSys.step]
        rw [if_neg hs]
        exact hc
    | dropReceiver =>
      by_cases hr : s.receivers = 1
      · simp only [ChanSys.step]
        rw [if_pos hr]
        rfl
      · simp only [ChanSys.step]
        rw [if_neg hr]
        exact hc
  · intro σ α ops ch v hc
    rw [send_disc ops ch v hc]
  · intro α ch t hch hc
    rw [try_recv_pop_none_disc (Queue.ops α) ch hch.pop_nil hc]

/-- Witness for C6: a fresh channel is connected; dropping its only sender
disconnects it; a send on a disconnected channel fails. -/
theorem connected_lifecycle_witness :
    (ChanSys.new (Queue.new (α := Nat))).inner.connected = true ∧
    (ChanSys.step (Queue.ops Nat) sampleSys (.dropSender : SysOp Nat)).inner.connected = false ∧
    (ChanInner.send (Queue.ops Nat) sampleDisc 3).1 = .error 3 :=
  ⟨connected_lifecycle.1 (Queue Nat) Queue.new,
   connected_lifecycle.2.2.1 (Queue Nat) Nat (Queue.ops Nat) sampleSys rfl,
   connected_lifecycle.2.2.2.2.2.1 (Queue Nat) Nat (Queue.ops Nat) sampleDisc 3 rfl⟩

/-- C10: dropping a cloned sender or receiver handle while another clone of
the same side exists only decrements that side's reference count; the shared
state (liveness flag, container, sleeper count, guard and notify counters) is
untouched, because the destructor runs only when the count reaches zero; and
cloning a handle only increments its side's count. -/
theorem drop_clone_frame :
    (∀ (σ α : Type) (ops : LockFree σ α) (s : ChanSys σ),
      2 ≤ s.senders →
      ChanSys.step ops s (.dropSender : SysOp α) = { s with senders := s.senders - 1 }) ∧
    (∀ (σ α : Type) (ops : LockFree σ α) (s : ChanSys σ),
      2 ≤ s.receivers →
      ChanSys.step ops s (.dropReceiver : SysOp α) = { s with receivers := s.receivers - 1 }) ∧
    (∀ (σ α : Type) (ops : LockFree σ α) (s : ChanSys σ),
      ChanSys.step ops s (.cloneSender : SysOp α) = { s with senders := s.senders + 1 } ∧
      ChanSys.step ops s (.cloneReceiver : SysOp α) = { s with receivers := s.receivers + 1 }) := by
  refine ⟨?_, ?_, ?_⟩
  · intro σ α ops s hs
    have h1 : s.senders ≠ 1 := by omega
    simp only [ChanSys.step]
    rw [if_neg h1]
  · intro σ α ops s hr
    have h1 : s.receivers ≠ 1 := by omega
    simp only [ChanSys.step]
    rw [if_neg h1]
  · intro σ α ops s
    exact ⟨rfl, rfl⟩

/-- Witness for C10: dropping one of two senders only decrements the count. -/
theorem drop_clone_frame_witness :
    ChanSys.step (Queue.ops Nat) { sampleSys with senders := 2 } (.dropSender : SysOp Nat) =
      { sampleSys with senders := 1 } := by
  have h := drop_clone_frame.1 (Queue Nat) Nat (Queue.ops Nat) { sampleSys with senders := 2 }
    (by decide)
  exact h
